import Mathlib

/-!
Shallow embedding of the moka library (`src/moka/__init__.py`): two chainable
container wrappers over the native list and dict types, together with their
argument binders.  Python values are modeled by `PyVal`; a method call on a
wrapper that can change the receiver is modeled as a function returning a
`(result, receiver-after-call)` pair, so that both the returned value and the
frame effect on the receiver are visible.
-/

namespace Moka

/-- Python values appearing in the claims: `None`, booleans, integers, strings,
and the `Blank` placeholder sentinel (bound to `_` in the source). -/
inductive PyVal where
  | vnone : PyVal
  | vbool : Bool → PyVal
  | vint : Int → PyVal
  | vstr : String → PyVal
  | vblank : PyVal
deriving DecidableEq

open PyVal

/-- Python truthiness (`bool(x)`) on the modeled values.  The `Blank` class
object is truthy, like every Python class. -/
def pyTruthy : PyVal → Bool
  | vnone => false
  | vbool b => b
  | vint n => n != 0
  | vstr s => s != ""
  | vblank => true

/-- Keyword arguments of a Python call site, in order. -/
abbrev KwArgs := List (String × PyVal)

/-- A Python callable as the sequence binder sees it: it receives the whole
positional tuple and the keyword arguments. -/
abbrev PyCallable := List PyVal → KwArgs → PyVal

/-- Failure kinds of the argument binders.  In the source these surface as the
host exceptions for a missing callable (`_f` called with an empty positional
tuple) and for an unknown operator name (`getattr(operator, k)`); the spec
groups both under the `ArgumentError` kind. -/
inductive ArgumentError where
  | missingCallable : ArgumentError
  | unknownOperator : String → ArgumentError
deriving DecidableEq

/-- Positional arguments of a sequence-wrapper call: either none at all, or the
leading callable `f` followed by the remaining fixed arguments. -/
inductive LArgs where
  | noArgs : LArgs
  | withFn : PyCallable → List PyVal → LArgs

/-- Positional arguments of a mapping-wrapper call: none, or the callable plus
the remaining fixed arguments.  The mapping callable only ever receives a
positional tuple: in `Dict._f` the keyword branch is taken whenever `kwargs`
is nonempty, so the callable branch always calls with empty kwargs. -/
inductive DArgs where
  | noArgs : DArgs
  | withFn : (List PyVal → PyVal) → List PyVal → DArgs

namespace MList

/-- `list.index(a)` as used by `List._f`: position of the first occurrence
(only evaluated when the element is present). -/
def index (a : PyVal) : List PyVal → Nat
  | [] => 0
  | b :: bs => if b = a then 0 else index a bs + 1

/-- Sequence argument binder `List._f`, mirroring the three source branches:
no extra arguments at all; extra arguments without the `Blank` placeholder
(element prepended); extra arguments containing `Blank` (element substituted
at the placeholder's position). -/
def moka_f (pargs : LArgs) (kwargs : KwArgs) :
    Except ArgumentError (PyVal → PyVal) :=
  match pargs with
  | LArgs.noArgs => Except.error ArgumentError.missingCallable
  | LArgs.withFn f args =>
    if args.isEmpty && kwargs.isEmpty then
      Except.ok (fun x => f [x] [])
    else if !(args.contains vblank) then
      Except.ok (fun x => f (x :: args) kwargs)
    else
      Except.ok (fun x => f (args.set (index vblank args) x) kwargs)

/-- `List._moka_assign`: `self[:] = items; return self`.  The receiver's
contents are replaced by `items` and the receiver itself is returned, modeled
as `(result, receiver-after-call)` with both components equal. -/
def moka_assign (_self items : List PyVal) : List PyVal × List PyVal :=
  (items, items)

/-- `List.map` with its bound function resolved: apply over every element,
then `_moka_assign` the produced elements into the receiver. -/
def map (self : List PyVal) (f : PyVal → PyVal) : List PyVal × List PyVal :=
  moka_assign self (self.map f)

/-- `List.keep` with its bound predicate resolved: `_moka_assign` the elements
whose predicate value is truthy. -/
def keep (self : List PyVal) (f : PyVal → PyVal) : List PyVal × List PyVal :=
  moka_assign self (self.filter (fun x => pyTruthy (f x)))

/-- `List.rem` with its bound predicate resolved: `_moka_assign` the elements
whose predicate value is falsy. -/
def rem (self : List PyVal) (f : PyVal → PyVal) : List PyVal × List PyVal :=
  moka_assign self (self.filter (fun x => !pyTruthy (f x)))

/-- `List.clone`: `List(self)`, a copy; under value semantics the copy has the
same contents as the receiver. -/
def clone (self : List PyVal) : List PyVal := self

/-- `List._proxy`: the wrapper installed around each native mutating method.
It builds a copy `inst = List(self)`, runs the native in-place operation on
the copy, and returns the copy; the receiver is left untouched. -/
def moka_proxy (nativeOp : List PyVal → List PyVal) (self : List PyVal) :
    List PyVal × List PyVal :=
  (nativeOp self, self)

/-- Proxied `append`. -/
def append (self : List PyVal) (x : PyVal) : List PyVal × List PyVal :=
  moka_proxy (fun l => l ++ [x]) self

/-- Proxied `extend`. -/
def extend (self : List PyVal) (xs : List PyVal) : List PyVal × List PyVal :=
  moka_proxy (fun l => l ++ xs) self

/-- Native `list.insert` at a (non-negative) position, clamping to the end as
Python does. -/
def insertNative (i : Nat) (x : PyVal) : List PyVal → List PyVal
  | [] => [x]
  | b :: bs =>
    match i with
    | 0 => x :: b :: bs
    | j + 1 => b :: insertNative j x bs

/-- Proxied `insert`. -/
def insert (self : List PyVal) (i : Nat) (x : PyVal) : List PyVal × List PyVal :=
  moka_proxy (insertNative i x) self

/-- Proxied `reverse`. -/
def reverse (self : List PyVal) : List PyVal × List PyVal :=
  moka_proxy (fun l => l.reverse) self

/-- `List.find` with its bound predicate resolved: first element whose
predicate value is truthy; the loop's fall-through return value is Python
`None`. -/
def find (self : List PyVal) (f : PyVal → PyVal) : PyVal :=
  match self with
  | [] => vnone
  | x :: xs => if pyTruthy (f x) then x else find xs f

/-- `List.some` with its bound predicate resolved: true as soon as one
predicate value is truthy, false past the end. -/
def some (self : List PyVal) (f : PyVal → PyVal) : Bool :=
  match self with
  | [] => false
  | x :: xs => if pyTruthy (f x) then true else some xs f

/-- Loop of `List.empty` when a predicate is supplied: `continue` on a truthy
value, early `False` on the first falsy one, `True` past the end. -/
def emptyLoop (f : PyVal → PyVal) : List PyVal → Bool
  | [] => true
  | x :: xs => if pyTruthy (f x) then emptyLoop f xs else false

/-- `List.empty`: with no arguments `not bool(self)`; with a predicate, the
all-elements-match loop above. -/
def empty (self : List PyVal) (arg : Option (PyVal → PyVal)) : Bool :=
  match arg with
  | Option.none => self.isEmpty
  | Option.some f => emptyLoop f self

/-- `List.count`: with no arguments the length; with a predicate,
`clone` then `keep` then `count()`. -/
def count (self : List PyVal) (arg : Option (PyVal → PyVal)) : Nat :=
  match arg with
  | Option.none => self.length
  | Option.some f => (keep (clone self) f).1.length

end MList

/-- The dict wrapper: its backing key/value pairs (in insertion order) plus the
`_moka_save` flag that `__init__` sets to `False`. -/
structure MDict where
  pairs : List (PyVal × PyVal)
  moka_save : Bool
deriving DecidableEq

namespace MDict

/-- Python `d[k] = v` on the backing association list: update the existing key
in place or append a new pair. -/
def setItem (d : List (PyVal × PyVal)) (k v : PyVal) : List (PyVal × PyVal) :=
  match d with
  | [] => [(k, v)]
  | (k0, v0) :: rest =>
    if k0 = k then (k0, v) :: rest else (k0, v0) :: setItem rest k v

/-- `dict(pairs)` construction: pairs are inserted in order, so a later pair
with a duplicate key wins. -/
def ofPairs (ps : List (PyVal × PyVal)) : List (PyVal × PyVal) :=
  ps.foldl (fun d kv => setItem d kv.1 kv.2) []

/-- `Dict(items)`: a fresh wrapper whose `_moka_save` flag is initialised to
`False`. -/
def mkDict (ps : List (PyVal × PyVal)) : MDict :=
  { pairs := ofPairs ps, moka_save := false }

/-- `operator.eq` on modeled values. -/
def opEq (a b : PyVal) : PyVal := vbool (a == b)

/-- `operator.ne` on modeled values. -/
def opNe (a b : PyVal) : PyVal := vbool (!(a == b))

/-- Strict comparison used by the ordering operators, defined on the numeric
and string cases the claims exercise; other combinations compare false. -/
def pyLt : PyVal → PyVal → Bool
  | vint a, vint b => decide (a < b)
  | vstr a, vstr b => decide (a < b)
  | _, _ => false

/-- Non-strict comparison used by the ordering operators. -/
def pyLe : PyVal → PyVal → Bool
  | vint a, vint b => decide (a ≤ b)
  | vstr a, vstr b => decide (a ≤ b)
  | _, _ => false

/-- `operator.lt`. -/
def opLt (a b : PyVal) : PyVal := vbool (pyLt a b)

/-- `operator.le`. -/
def opLe (a b : PyVal) : PyVal := vbool (pyLe a b)

/-- `operator.gt`. -/
def opGt (a b : PyVal) : PyVal := vbool (pyLt b a)

/-- `operator.ge`. -/
def opGe (a b : PyVal) : PyVal := vbool (pyLe b a)

/-- Lookup `getattr(operator, k)` restricted to the binary comparison
operators of the operator-shortcut form; any other name resolves to nothing
(an `AttributeError` in the source). -/
def opTable : String → Option (PyVal → PyVal → PyVal)
  | "eq" => Option.some opEq
  | "ne" => Option.some opNe
  | "lt" => Option.some opLt
  | "le" => Option.some opLe
  | "gt" => Option.some opGt
  | "ge" => Option.some opGe
  | _ => Option.none

/-- Mapping argument binder `Dict._f`.  With keyword arguments present, the
first one is taken as an operator shortcut producing
`(key, value) ↦ op(value, operand)`; otherwise the first positional argument
is the callable and `(x, y)` are prepended to the remaining positional
arguments. -/
def moka_f (pargs : DArgs) (kwargs : KwArgs) :
    Except ArgumentError (PyVal → PyVal → PyVal) :=
  match kwargs with
  | (k, v) :: _ =>
    match opTable k with
    | Option.some fn => Except.ok (fun _x y => fn y v)
    | Option.none => Except.error (ArgumentError.unknownOperator k)
  | [] =>
    match pargs with
    | DArgs.noArgs => Except.error ArgumentError.missingCallable
    | DArgs.withFn f rest => Except.ok (fun x y => f (x :: y :: rest))

/-- `Dict._moka_assign`: with the save flag set, the method body falls through
and returns Python `None`; otherwise it returns a fresh `Dict` built from the
items.  The receiver is never touched. -/
def moka_assign (self : MDict) (items : List (PyVal × PyVal)) : Option MDict :=
  if self.moka_save then Option.none
  else Option.some (mkDict items)

/-- `Dict.map` with its bound function resolved (the bound function returns a
`(key, value)` pair): a fresh dict is assembled from the produced pairs;
modeled as `(result, receiver-after-call)`. -/
def mapF (self : MDict) (f : PyVal → PyVal → PyVal × PyVal) :
    Option MDict × MDict :=
  (moka_assign self (self.pairs.map (fun kv => f kv.1 kv.2)), self)

/-- `Dict.keep` with its bound predicate resolved. -/
def keepF (self : MDict) (f : PyVal → PyVal → PyVal) : Option MDict × MDict :=
  (moka_assign self (self.pairs.filter (fun kv => pyTruthy (f kv.1 kv.2))), self)

/-- `Dict.rem` with its bound predicate resolved. -/
def remF (self : MDict) (f : PyVal → PyVal → PyVal) : Option MDict × MDict :=
  (moka_assign self (self.pairs.filter (fun kv => !pyTruthy (f kv.1 kv.2))), self)

/-- `Dict.keep` including argument binding through `Dict._f`. -/
def keep (self : MDict) (pargs : DArgs) (kwargs : KwArgs) :
    Except ArgumentError (Option MDict × MDict) :=
  (moka_f pargs kwargs).map (fun f => keepF self f)

/-- `Dict(self)` as used inside `count` and `empty`: a fresh wrapper with the
same pairs and the save flag back at `False`. -/
def copy (self : MDict) : MDict := { pairs := self.pairs, moka_save := false }

/-- `Dict.count`: with no arguments the length; with a resolved predicate,
`len(Dict(self).keep(...))`.  The `Option.none` branch of the inner match is
unreachable because the fresh copy never has the save flag set. -/
def countF (self : MDict) (arg : Option (PyVal → PyVal → PyVal)) : Nat :=
  match arg with
  | Option.none => self.pairs.length
  | Option.some f =>
    match (keepF (copy self) f).1 with
    | Option.some d => d.pairs.length
    | Option.none => 0

/-- `Dict.empty`: with no arguments `len(self) == 0`; with a resolved
predicate, `len(Dict(self).rem(...)) == 0`.  The `Option.none` branch of the
inner match is unreachable because the fresh copy never has the save flag
set. -/
def emptyF (self : MDict) (arg : Option (PyVal → PyVal → PyVal)) : Bool :=
  match arg with
  | Option.none => self.pairs.length == 0
  | Option.some f =>
    match (remF (copy self) f).1 with
    | Option.some d => d.pairs.length == 0
    | Option.none => false

end MDict

/-- Sample callable used to witness the placeholder claim: it returns its
second positional argument. -/
def argAt1 : PyCallable := fun ps _ => ps.getD 1 PyVal.vnone

/-! ### Supporting lemmas -/

/-- The early-return loop of `List.empty` agrees with the all-elements check. -/
theorem emptyLoop_eq_all (f : PyVal → PyVal) (s : List PyVal) :
    MList.emptyLoop f s = s.all (fun x => pyTruthy (f x)) := by
  induction s with
  | nil => rfl
  | cons x xs ih =>
    by_cases h : pyTruthy (f x) = true <;> simp [MList.emptyLoop, h, ih]

/-- `List.find` returns the first match in original order, with `None` as the
fall-through. -/
theorem find_eq_findFirst (s : List PyVal) (p : PyVal → PyVal) :
    MList.find s p = ((s.find? (fun x => pyTruthy (p x))).getD vnone) := by
  induction s with
  | nil => rfl
  | cons x xs ih =>
    by_cases h : pyTruthy (p x) = true <;> simp [MList.find, List.find?, h, ih]

/-- Assigning a key into the backing association list never empties it. -/
theorem setItem_ne_nil (d : List (PyVal × PyVal)) (k v : PyVal) :
    MDict.setItem d k v ≠ [] := by
  match d with
  | [] => simp [MDict.setItem]
  | (k0, v0) :: rest =>
    by_cases h : k0 = k <;> simp [MDict.setItem, h]

/-- Folding key insertions over a nonempty accumulator stays nonempty. -/
theorem foldl_setItem_ne_nil (ps : List (PyVal × PyVal)) :
    ∀ d : List (PyVal × PyVal), d ≠ [] →
      ps.foldl (fun d kv => MDict.setItem d kv.1 kv.2) d ≠ [] := by
  induction ps with
  | nil => intro d hd; simpa using hd
  | cons kv rest ih =>
    intro d _hd
    simpa using ih (MDict.setItem d kv.1 kv.2) (setItem_ne_nil d kv.1 kv.2)

/-- Dict construction from pairs is empty exactly on the empty pair list. -/
theorem ofPairs_eq_nil_iff (ps : List (PyVal × PyVal)) :
    MDict.ofPairs ps = [] ↔ ps = [] := by
  constructor
  · intro h
    match ps with
    | [] => rfl
    | kv :: rest =>
      exfalso
      exact foldl_setItem_ne_nil rest (MDict.setItem [] kv.1 kv.2)
        (setItem_ne_nil [] kv.1 kv.2) (by simpa [MDict.ofPairs] using h)
  · intro h; subst h; rfl

/-! ### Claims -/

/-- Claim C1, counterexample: `List.map` does mutate the receiver's stored
elements in place.  After mapping the constant-2 function over `[1]`, the
receiver no longer holds its original elements. -/
theorem map_mutates_receiver_cx :
    (MList.map [vint 1] (fun _ => vint 2)).2 ≠ [vint 1] := by decide

/-- Claim C1, amended: `List.map` (and likewise `keep`/`rem`) replaces the
receiver's stored elements in place with the produced elements and returns the
receiver itself — the result and the post-call receiver coincide; `map`
preserves the length; after the call the receiver holds the transformed
elements, not the originals. -/
theorem transforms_assign_in_place (s : List PyVal) (f p : PyVal → PyVal) :
    (MList.map s f).1 = (MList.map s f).2 ∧
    (MList.map s f).2 = s.map f ∧
    (MList.map s f).1.length = s.length ∧
    (MList.keep s p).1 = (MList.keep s p).2 ∧
    (MList.rem s p).1 = (MList.rem s p).2 := by
  refine ⟨rfl, rfl, ?_, rfl, rfl⟩
  simp [MList.map, MList.moka_assign]

/-- Claim C2, counterexample: the proxied `append` leaves the receiver
unchanged — its length does not increase — and the returned list is not the
receiver. -/
theorem append_copies_receiver_cx :
    (MList.append [vint 1, vint 2] (vint 3)).2 = [vint 1, vint 2] ∧
    (MList.append [vint 1, vint 2] (vint 3)).1 ≠
      (MList.append [vint 1, vint 2] (vint 3)).2 := by decide

/-- Claim C2, amended: the native mutator proxies (`append`/`extend`/`insert`/
`reverse`, all installed through `_proxy`) build a copy of the receiver, apply
the native in-place primitive to the copy, and return the copy; the receiver
is left unchanged, and the list returned by `append` has length `len(s) + 1`. -/
theorem proxy_returns_copy (s : List PyVal) (x : PyVal) (xs : List PyVal) (i : Nat) :
    MList.append s x = (s ++ [x], s) ∧
    (MList.append s x).1.length = s.length + 1 ∧
    MList.extend s xs = (s ++ xs, s) ∧
    MList.reverse s = (s.reverse, s) ∧
    (MList.insert s i x).2 = s := by
  refine ⟨rfl, ?_, rfl, rfl, rfl⟩
  simp [MList.append, MList.moka_proxy]

/-- Claim C3 (confirmed): binding `f` with positional arguments
`(A, Blank, C)` yields a function that, applied to `x`, calls `f(A, x, C)` —
the element is substituted at the placeholder's position and is not
additionally prepended. -/
theorem blank_substitution (f : PyCallable) (A C : PyVal) (kw : KwArgs)
    (hA : A ≠ vblank) (_hC : C ≠ vblank) :
    MList.moka_f (LArgs.withFn f [A, vblank, C]) kw
      = Except.ok (fun x => f [A, x, C] kw) := by
  have h1 : (vblank == A) = false := by simp [Ne.symm hA]
  simp [MList.moka_f, MList.index, List.contains, List.elem, h1, hA]

/-- Claim C3, witness: the placeholder substitution at the concrete call
`f(7, Blank, 9)` applied to an element. -/
theorem blank_substitution_witness :
    (vint 7 : PyVal) ≠ vblank ∧ (vint 9 : PyVal) ≠ vblank ∧
    MList.moka_f (LArgs.withFn argAt1 [vint 7, vblank, vint 9]) []
      = Except.ok (fun x => argAt1 [vint 7, x, vint 9] []) :=
  ⟨by decide, by decide,
    blank_substitution argAt1 (vint 7) (vint 9) [] (by decide) (by decide)⟩

/-- Claim C4 (confirmed): a recognized comparison-operator keyword with
operand `v` makes the mapping binder produce `(key, value) ↦ op(value, v)`,
ignoring the key; concretely,
`Dict({'a':1,'b':2,'c':3}).keep(eq=2)` equals `{'b':2}`. -/
theorem dict_operator_shortcut (pargs : DArgs) (k : String) (v : PyVal)
    (kws : KwArgs) (fn : PyVal → PyVal → PyVal)
    (h : MDict.opTable k = Option.some fn) :
    MDict.moka_f pargs ((k, v) :: kws) = Except.ok (fun _x y => fn y v) ∧
    MDict.keep
        (MDict.mkDict [(vstr "a", vint 1), (vstr "b", vint 2), (vstr "c", vint 3)])
        DArgs.noArgs [("eq", vint 2)]
      = Except.ok (Option.some (MDict.mkDict [(vstr "b", vint 2)]),
          MDict.mkDict [(vstr "a", vint 1), (vstr "b", vint 2), (vstr "c", vint 3)]) := by
  refine ⟨?_, rfl⟩
  simp [MDict.moka_f, h]

/-- Claim C4, witness: the `eq` shortcut with operand `5`. -/
theorem dict_operator_shortcut_witness :
    MDict.opTable "eq" = Option.some MDict.opEq ∧
    MDict.moka_f DArgs.noArgs [("eq", vint 5)]
      = Except.ok (fun _x y => MDict.opEq y (vint 5)) :=
  ⟨rfl, (dict_operator_shortcut DArgs.noArgs "eq" (vint 5) [] MDict.opEq rfl).1⟩

/-- Claim C5, counterexample: calling `keep` and then `rem` sequentially on
the same receiver does not partition the original sequence, because `keep`
already rewrote the receiver's contents in place: on `[1, 2]` with the
predicate `x == 1`, the two result lengths sum to 1, not 2. -/
theorem keep_rem_sequential_cx :
    (MList.keep [vint 1, vint 2] (fun x => vbool (x == vint 1))).1.length +
      (MList.rem (MList.keep [vint 1, vint 2] (fun x => vbool (x == vint 1))).2
        (fun x => vbool (x == vint 1))).1.length ≠
      ([vint 1, vint 2] : List PyVal).length := by decide

/-- Claim C5, amended: when `keep` and `rem` are each applied to the same
original contents of `s` (e.g. via clones, as the library's own tests do), the
result lengths sum to `len(s)` and the two results form an order-preserving
partition of `s` — each is a sublist of `s` and together they are a
permutation of `s`, so no element is duplicated or dropped. -/
theorem keep_rem_partition (s : List PyVal) (p : PyVal → PyVal) :
    (MList.keep s p).1.length + (MList.rem s p).1.length = s.length ∧
    List.Perm ((MList.keep s p).1 ++ (MList.rem s p).1) s ∧
    List.Sublist (MList.keep s p).1 s ∧
    List.Sublist (MList.rem s p).1 s := by
  have hperm := List.filter_append_perm (fun x => pyTruthy (p x)) s
  refine ⟨?_, ?_, ?_, ?_⟩
  · have hl := hperm.length_eq
    simpa [MList.keep, MList.rem, MList.moka_assign] using hl
  · simpa [MList.keep, MList.rem, MList.moka_assign] using hperm
  · exact List.filter_sublist s
  · exact List.filter_sublist s

/-- Claim C6, counterexample: on the sequence `[None]` with an always-true
predicate, `some` is true yet `find` returns `None`, the very value that marks
"not found" — the equivalence fails and the not-found result is not
distinguishable from a legitimate element. -/
theorem some_find_none_cx :
    ¬ (MList.some [vnone] (fun _ => vbool true) = true ↔
       MList.find [vnone] (fun _ => vbool true) ≠ vnone) := by decide

/-- Claim C6, amended: `find` returns the first element in original order
satisfying the predicate and `None` when no element matches; the not-found
result `None` coincides with a legitimate `None` element, so only for
sequences not containing `None` does `s.some(p)` hold exactly when
`s.find(p)` is not `None`. -/
theorem find_first_some_iff (s : List PyVal) (p : PyVal → PyVal)
    (h : vnone ∉ s) :
    MList.find s p = ((s.find? (fun x => pyTruthy (p x))).getD vnone) ∧
    (MList.some s p = true ↔ MList.find s p ≠ vnone) := by
  refine ⟨find_eq_findFirst s p, ?_⟩
  induction s with
  | nil => simp [MList.some, MList.find]
  | cons x xs ih =>
    have hx : x ≠ vnone := by intro hx; exact h (hx ▸ List.mem_cons_self x xs)
    have hxs : vnone ∉ xs := fun hm => h (List.mem_cons_of_mem x hm)
    by_cases hp : pyTruthy (p x) = true
    · simp [MList.some, MList.find, hp, hx]
    · simp only [MList.some, MList.find, hp, if_false]
      exact ih hxs

/-- Claim C6, witness: on `[0, 3]` (no `None` element) with the predicate
`x == 3`. -/
theorem find_first_some_iff_witness :
    vnone ∉ ([vint 0, vint 3] : List PyVal) ∧
    (MList.find [vint 0, vint 3] (fun x => vbool (x == vint 3))
        = (([vint 0, vint 3] : List PyVal).find?
            (fun x => pyTruthy ((fun x => vbool (x == vint 3)) x))).getD vnone ∧
     (MList.some [vint 0, vint 3] (fun x => vbool (x == vint 3)) = true ↔
      MList.find [vint 0, vint 3] (fun x => vbool (x == vint 3)) ≠ vnone)) :=
  ⟨by decide,
    find_first_some_iff [vint 0, vint 3] (fun x => vbool (x == vint 3)) (by decide)⟩

/-- Claim C7 (confirmed): `empty()` with no arguments is true exactly when the
length is zero, and `empty(p)` is true exactly when every element (every
key/value pair for the dict) satisfies `p` — all-elements-match semantics,
vacuously true on an empty wrapper. -/
theorem empty_all_match (s : List PyVal) (p : PyVal → PyVal)
    (d : MDict) (q : PyVal → PyVal → PyVal) :
    (MList.empty s Option.none = true ↔ s.length = 0) ∧
    (MList.empty s (Option.some p) = true ↔ ∀ x ∈ s, pyTruthy (p x) = true) ∧
    (MList.empty [] (Option.some p) = true) ∧
    (MDict.emptyF d Option.none = true ↔ d.pairs.length = 0) ∧
    (MDict.emptyF d (Option.some q) = true ↔
      ∀ kv ∈ d.pairs, pyTruthy (q kv.1 kv.2) = true) ∧
    (MDict.emptyF (MDict.mkDict []) (Option.some q) = true) := by
  refine ⟨?_, ?_, ?_, ?_, ?_, ?_⟩
  · simp [MList.empty, List.isEmpty_iff_length_eq_zero]
  · simp [MList.empty, emptyLoop_eq_all, List.all_eq_true]
  · simp [MList.empty, MList.emptyLoop]
  · simp [MDict.emptyF]
  · simp only [MDict.emptyF, MDict.remF, MDict.moka_assign, MDict.copy,
      MDict.mkDict, if_false, Bool.false_eq_true]
    rw [beq_iff_eq, List.length_eq_zero, ofPairs_eq_nil_iff, List.filter_eq_nil_iff]
    simp
  · simp [MDict.emptyF, MDict.remF, MDict.moka_assign, MDict.copy, MDict.mkDict,
      MDict.ofPairs]

/-- Claim C8 (confirmed): `count()` with no arguments is the length, and
`count(p)` equals the length of the `keep(p)` result, i.e. the number of
elements satisfying `p`; the dict variant agrees. -/
theorem count_matches_keep (s : List PyVal) (p : PyVal → PyVal)
    (d : MDict) (q : PyVal → PyVal → PyVal) :
    (MList.count s Option.none = s.length) ∧
    (MList.count s (Option.some p) = (MList.keep s p).1.length) ∧
    (MList.count s (Option.some p) = s.countP (fun x => pyTruthy (p x))) ∧
    (MDict.countF d Option.none = d.pairs.length) ∧
    (∃ dk : MDict, (MDict.keepF (MDict.copy d) q).1 = Option.some dk ∧
      MDict.countF d (Option.some q) = dk.pairs.length) := by
  refine ⟨rfl, rfl, ?_, rfl, ?_⟩
  · simp [MList.count, MList.keep, MList.clone, MList.moka_assign,
      List.countP_eq_length_filter]
  · exact ⟨MDict.mkDict (d.pairs.filter (fun kv => pyTruthy (q kv.1 kv.2))),
      rfl, rfl⟩

/-- Claim C9 (confirmed): the argument binders fail with an `ArgumentError`
kind in exactly two situations — zero positional arguments in the
callable-first form, and an operator-shortcut keyword that does not name a
known binary comparison operator. -/
theorem binder_failure_modes (pargs : DArgs) (kwargs : KwArgs)
    (largs : LArgs) (lkw : KwArgs) :
    ((∃ e, MDict.moka_f pargs kwargs = Except.error e) ↔
      ((kwargs = [] ∧ pargs = DArgs.noArgs) ∨
       (∃ k v rest, kwargs = (k, v) :: rest ∧ MDict.opTable k = Option.none))) ∧
    ((∃ e, MList.moka_f largs lkw = Except.error e) ↔ largs = LArgs.noArgs) := by
  constructor
  · match kwargs with
    | [] =>
      match pargs with
      | DArgs.noArgs => simp [MDict.moka_f]
      | DArgs.withFn f rest => simp [MDict.moka_f]
    | (k, v) :: tl =>
      match h : MDict.opTable k with
      | Option.some fn => simp [MDict.moka_f, h]
      | Option.none => simp [MDict.moka_f, h]
  · match largs with
    | LArgs.noArgs => simp [MList.moka_f]
    | LArgs.withFn f rest =>
      simp only [MList.moka_f]
      constructor
      · intro he
        obtain ⟨e, he⟩ := he
        split at he
        · simp_all
        · split at he <;> simp_all
      · intro hc; exact absurd hc (by simp)

/-- Claim C10 (confirmed): with the save flag at its default `False`,
`Dict.map`/`keep`/`rem` each return a fresh `Dict` built from the produced
pairs (its save flag again `False`) and leave the receiver unchanged — the
opposite of the in-place list transforms. -/
theorem dict_transforms_fresh (d : MDict) (f : PyVal → PyVal → PyVal × PyVal)
    (g : PyVal → PyVal → PyVal) (h : d.moka_save = false) :
    (MDict.mapF d f).2 = d ∧
    (MDict.mapF d f).1 =
      Option.some (MDict.mkDict (d.pairs.map (fun kv => f kv.1 kv.2))) ∧
    (MDict.keepF d g).2 = d ∧
    (MDict.keepF d g).1 =
      Option.some (MDict.mkDict (d.pairs.filter (fun kv => pyTruthy (g kv.1 kv.2)))) ∧
    (MDict.remF d g).2 = d ∧
    (MDict.remF d g).1 =
      Option.some (MDict.mkDict (d.pairs.filter (fun kv => !pyTruthy (g kv.1 kv.2)))) ∧
    (MDict.mkDict (d.pairs.map (fun kv => f kv.1 kv.2))).moka_save = false := by
  refine ⟨rfl, ?_, rfl, ?_, rfl, ?_, rfl⟩ <;>
    simp [MDict.mapF, MDict.keepF, MDict.remF, MDict.moka_assign, h]

/-- Claim C10, witness: the identity transform over `{'a': 1}`. -/
theorem dict_transforms_fresh_witness :
    (MDict.mkDict [(vstr "a", vint 1)]).moka_save = false ∧
    ((MDict.mapF (MDict.mkDict [(vstr "a", vint 1)])
        (fun k v => (k, v))).2 = MDict.mkDict [(vstr "a", vint 1)] ∧
     (MDict.mapF (MDict.mkDict [(vstr "a", vint 1)])
        (fun k v => (k, v))).1 =
        Option.some (MDict.mkDict ((MDict.mkDict [(vstr "a", vint 1)]).pairs.map
          (fun kv => (fun k v => ((k : PyVal), (v : PyVal))) kv.1 kv.2))) ∧
     (MDict.keepF (MDict.mkDict [(vstr "a", vint 1)])
        (fun _ _ => vbool true)).2 = MDict.mkDict [(vstr "a", vint 1)] ∧
     (MDict.keepF (MDict.mkDict [(vstr "a", vint 1)])
        (fun _ _ => vbool true)).1 =
        Option.some (MDict.mkDict ((MDict.mkDict [(vstr "a", vint 1)]).pairs.filter
          (fun kv => pyTruthy ((fun _ _ => vbool true) kv.1 kv.2)))) ∧
     (MDict.remF (MDict.mkDict [(vstr "a", vint 1)])
        (fun _ _ => vbool true)).2 = MDict.mkDict [(vstr "a", vint 1)] ∧
     (MDict.remF (MDict.mkDict [(vstr "a", vint 1)])
        (fun _ _ => vbool true)).1 =
        Option.some (MDict.mkDict ((MDict.mkDict [(vstr "a", vint 1)]).pairs.filter
          (fun kv => !pyTruthy ((fun _ _ => vbool true) kv.1 kv.2)))) ∧
     (MDict.mkDict ((MDict.mkDict [(vstr "a", vint 1)]).pairs.map
        (fun kv => (fun k v => ((k : PyVal), (v : PyVal))) kv.1 kv.2))).moka_save = false) :=
  ⟨rfl, dict_transforms_fresh (MDict.mkDict [(vstr "a", vint 1)])
    (fun k v => (k, v)) (fun _ _ => vbool true) rfl⟩

end Moka
